import Mathlib

/-!
Verification of `src/Kraken_recording/arduino_lsl_bridge.py` (the serial→LSL
EMG bridge).  The serial port is modelled as the list of bytes it will
deliver, in order; a byte is a `Nat` below 256.  A blocking call that would
wait forever on an exhausted source is modelled as `none`.  Python's
`float(raw)` conversion applied to a 16-bit unsigned integer is exact
(every value `0..65535` is below `2^53`), so decoded channel values are
modelled by the integers themselves.
-/

namespace Bridge

/-- `SYNC_BYTE_1 = 0xC7` from the configuration block. -/
def SYNC_BYTE_1 : Nat := 0xC7

/-- `SYNC_BYTE_2 = 0x7C` from the configuration block. -/
def SYNC_BYTE_2 : Nat := 0x7C

/-- `END_BYTE = 0x01` from the configuration block. -/
def END_BYTE : Nat := 0x01

/-- `NUM_CHANNELS = 6` from the configuration block. -/
def NUM_CHANNELS : Nat := 6

/-- `PACKET_LEN = NUM_CHANNELS * 2 + 3 + 1 = 16` from the configuration block. -/
def PACKET_LEN : Nat := NUM_CHANNELS * 2 + 3 + 1

/-!
### `read_exact` (lines 28–36)

`read_exact(ser, n)` loops `while len(data) < n`, each time calling
`ser.read(n - len(data))`, retrying empty chunks (`if not chunk: continue`)
and appending non-empty ones, finally returning `bytes(data)`.

To capture pyserial's behaviour that a read with a timeout may return any
prefix of the bytes currently buffered — including none — the source is
modelled as a list of bursts (`List (List Nat)`): the bytes that each
successive `ser.read` call finds available.  `serRead bursts k` returns at
most `k` bytes from the front burst and leaves the surplus buffered; an
empty front burst models a read timeout that returned `b""`.
-/

/-- The accumulation loop of `read_exact`: `data` is the bytes gathered so
far and each iteration calls `ser.read(n - len(data))`, which delivers at
most that many bytes from the front burst, keeping any surplus buffered for
the next call.  An empty chunk — an empty front burst, i.e. a read that
timed out with `b""` — is retried (`continue`); an exhausted source makes
the Python loop block forever, modelled as `none`. -/
def read_exact_go (ser : List (List Nat)) (data : List Nat) (n : Nat) :
    Option (List Nat × List (List Nat)) :=
  if h : data.length < n then
    match ser with
    | [] => none
    | c :: cs =>
      match c.take (n - data.length) with
      | [] => read_exact_go cs data n
      | x :: xs =>
        read_exact_go
          (if (c.drop (n - data.length)).isEmpty then cs
           else c.drop (n - data.length) :: cs)
          (data ++ x :: xs) n
  else
    some (data, ser)
  termination_by (n - data.length) + ser.length
  decreasing_by
  · simp only [List.length_cons]; omega
  · split <;> simp only [List.length_append, List.length_cons] <;> omega

/-- `read_exact(ser, n)`: returns the `n` bytes read and the state of the
source afterwards. -/
def read_exact (ser : List (List Nat)) (n : Nat) :
    Option (List Nat × List (List Nat)) :=
  read_exact_go ser [] n

/-!
### Flat-source model

For `find_sync` and the main loop the burst structure is irrelevant (every
read retries until bytes arrive), so the source is flattened to the plain
list of bytes it will deliver.  `read_exact` over a flat source returns the
next `n` bytes when they exist and blocks (`none`) otherwise;
`read_exact_flat_agrees` below proves this agrees with the burst model.
-/

/-- `read_exact` over a flat byte source. -/
def read_exact_flat (s : List Nat) (n : Nat) : Option (List Nat × List Nat) :=
  if n ≤ s.length then some (s.take n, s.drop n) else none

/-- What a successful flat `read_exact` tells us. -/
theorem read_exact_flat_some {s : List Nat} {n : Nat} {packet s1 : List Nat}
    (h : read_exact_flat s n = some (packet, s1)) :
    n ≤ s.length ∧ packet = s.take n ∧ s1 = s.drop n := by
  unfold read_exact_flat at h
  by_cases hc : n ≤ s.length
  · rw [if_pos hc] at h
    simp only [Option.some.injEq, Prod.mk.injEq] at h
    exact ⟨hc, h.1.symm, h.2.symm⟩
  · rw [if_neg hc] at h
    exact Option.noConfusion h

/-- A flat `read_exact` succeeds exactly when enough bytes remain. -/
theorem read_exact_flat_of_le {s : List Nat} {n : Nat} (h : n ≤ s.length) :
    read_exact_flat s n = some (s.take n, s.drop n) := by
  unfold read_exact_flat
  rw [if_pos h]

/-!
### `find_sync` (lines 39–53)

```
while True:
    b = ser.read(1)
    if not b: continue
    if b[0] != SYNC_BYTE_1: continue
    b2 = ser.read(1)
    if not b2 or b2[0] != SYNC_BYTE_2:
        # restart search
        continue
    rest = read_exact(ser, PACKET_LEN - 2)
    return bytes([SYNC_BYTE_1, SYNC_BYTE_2]) + rest
```

Each iteration consumes one byte `b`; when it equals `SYNC_BYTE_1` the next
byte `b2` is also consumed (by `ser.read(1)`, not peeked); a mismatching
`b2` is discarded together with `b` and the scan restarts at the byte after
`b2`.  On a confirmed marker the remaining `PACKET_LEN - 2` bytes are read.
-/

/-- `find_sync(ser)`: scan a flat byte source for the marker pair and return
the assembled `PACKET_LEN`-byte packet together with the remaining source;
`none` models blocking forever on an exhausted source. -/
def find_sync : List Nat → Option (List Nat × List Nat)
  | [] => none
  | b :: rest =>
    if b ≠ SYNC_BYTE_1 then
      find_sync rest
    else
      match rest with
      | [] => none
      | b2 :: rest2 =>
        if b2 ≠ SYNC_BYTE_2 then
          find_sync rest2
        else if PACKET_LEN - 2 ≤ rest2.length then
          some (SYNC_BYTE_1 :: SYNC_BYTE_2 :: rest2.take (PACKET_LEN - 2),
                rest2.drop (PACKET_LEN - 2))
        else
          none

/-- `find_sync` on an exhausted source blocks. -/
theorem find_sync_nil : find_sync [] = none := rfl

/-- A byte that is not `SYNC_BYTE_1` is consumed and the scan continues. -/
theorem find_sync_cons_ne {b : Nat} {rest : List Nat} (hb : b ≠ SYNC_BYTE_1) :
    find_sync (b :: rest) = find_sync rest := by
  rw [find_sync.eq_def]; simp [hb]

/-- A lone candidate byte with nothing after it makes `find_sync` block. -/
theorem find_sync_m1_nil : find_sync [SYNC_BYTE_1] = none := rfl

/-- After a candidate `SYNC_BYTE_1`, a second byte that is not `SYNC_BYTE_2`
is also consumed; the scan restarts at the byte after it. -/
theorem find_sync_m1_ne {b2 : Nat} {r : List Nat} (hb2 : b2 ≠ SYNC_BYTE_2) :
    find_sync (SYNC_BYTE_1 :: b2 :: r) = find_sync r := by
  rw [find_sync.eq_def]; simp [hb2]

/-- A confirmed marker pair: the next `PACKET_LEN - 2` bytes complete the
returned packet. -/
theorem find_sync_m1_m2 {r : List Nat} (h : PACKET_LEN - 2 ≤ r.length) :
    find_sync (SYNC_BYTE_1 :: SYNC_BYTE_2 :: r) =
      some (SYNC_BYTE_1 :: SYNC_BYTE_2 :: r.take (PACKET_LEN - 2),
        r.drop (PACKET_LEN - 2)) := by
  rw [find_sync.eq_def]; simp [h]

/-- A confirmed marker pair with too few bytes left blocks in `read_exact`. -/
theorem find_sync_m1_m2_short {r : List Nat} (h : r.length < PACKET_LEN - 2) :
    find_sync (SYNC_BYTE_1 :: SYNC_BYTE_2 :: r) = none := by
  rw [find_sync.eq_def]
  simp only [ne_eq, not_true_eq_false, if_false, ite_eq_right_iff]
  intro hle
  omega

/-- A successful `find_sync` consumes at least the two marker bytes: the
leftover source is strictly shorter than the input. -/
theorem find_sync_length_lt :
    ∀ {s p s' : List Nat}, find_sync s = some (p, s') → s'.length < s.length := by
  intro s
  induction s using find_sync.induct with
  | case1 => intro p s' h; simp [find_sync_nil] at h
  | case2 b rest hb ih =>
    intro p s' h
    rw [find_sync_cons_ne hb] at h
    exact Nat.lt_succ_of_lt (ih h)
  | case3 b hb =>
    intro p s' h
    rw [not_ne_iff] at hb
    subst hb
    rw [find_sync_m1_nil] at h
    exact Option.noConfusion h
  | case4 b hb b2 rest2 hb2 ih =>
    intro p s' h
    rw [not_ne_iff] at hb
    subst hb
    rw [find_sync_m1_ne hb2] at h
    exact Nat.lt_succ_of_lt (Nat.lt_succ_of_lt (ih h))
  | case5 b hb b2 rest2 hb2 hlen =>
    intro p s' h
    rw [not_ne_iff] at hb hb2
    subst hb; subst hb2
    rw [find_sync_m1_m2 hlen] at h
    simp only [Option.some.injEq, Prod.mk.injEq] at h
    have hds : s'.length ≤ rest2.length := by
      rw [← h.2, List.length_drop]; omega
    simp only [List.length_cons]
    omega
  | case6 b hb b2 rest2 hb2 hlen =>
    intro p s' h
    rw [not_ne_iff] at hb hb2
    subst hb; subst hb2
    rw [find_sync_m1_m2_short (by omega)] at h
    exact Option.noConfusion h

/-- The scanning discipline of `find_sync` applied to a byte list taken as
pure noise: `true` when the scan consumes the whole list and ends looking
for a fresh `SYNC_BYTE_1` candidate — i.e. no marker pair is found inside
the list and no trailing candidate is left waiting to pair with the byte
that follows the list. -/
def scan_consumes : List Nat → Bool
  | [] => true
  | b :: rest =>
    if b ≠ SYNC_BYTE_1 then
      scan_consumes rest
    else
      match rest with
      | [] => false
      | b2 :: rest2 =>
        if b2 ≠ SYNC_BYTE_2 then scan_consumes rest2
        else false

/-!
### Validation and decoding inside the main loop (lines 94–114)
-/

/-- The rejection test of the main loop (line 98):
`packet[0] != SYNC_BYTE_1 or packet[1] != SYNC_BYTE_2 or packet[-1] != END_BYTE`.
`packet[-1]` is the last byte; packets handed to this test always have
`PACKET_LEN = 16` bytes. -/
def packet_rejected (packet : List Nat) : Bool :=
  (packet.getD 0 0 != SYNC_BYTE_1) || (packet.getD 1 0 != SYNC_BYTE_2) ||
    (packet.getLastD 0 != END_BYTE)

/-- The decoding loop (lines 104–112): for each channel `i`,
`high = packet[3 + 2*i]`, `low = packet[3 + 2*i + 1]`,
`raw = (high << 8) | low`, collected in channel order.  `float(raw)` is
exact on `0..65535`, so the sample is modelled by the raw integers. -/
def decode_packet (packet : List Nat) : List Nat :=
  (List.range NUM_CHANNELS).map fun i =>
    let high := packet.getD (3 + 2 * i) 0
    let low := packet.getD (3 + 2 * i + 1) 0
    (high <<< 8) ||| low

/-!
### The main loop (lines 94–121)

```
while True:
    packet = read_exact(ser, PACKET_LEN)
    if packet[0] != SYNC_BYTE_1 or packet[1] != SYNC_BYTE_2 or packet[-1] != END_BYTE:
        packet = find_sync(ser)
        continue
    values = [...decode...]
    outlet.push_sample(values)
    sample_count += 1
```

Note that after a rejection the packet returned by `find_sync` is assigned
and then immediately overwritten by the `read_exact` at the top of the next
iteration: it is consumed for alignment only, never validated or published.
The loop runs forever on the live device; on a finite modelled source it
stops (blocks) when a read cannot be served, so the model returns the list
of samples published before that point.
-/

/-- One bridge-loop run over a flat source: the samples published, in
publish order. -/
def bridge_loop (s : List Nat) : List (List Nat) :=
  match h : read_exact_flat s PACKET_LEN with
  | none => []
  | some (packet, s1) =>
    if packet_rejected packet then
      match h2 : find_sync s1 with
      | none => []
      | some (_, s2) => bridge_loop s2
    else
      decode_packet packet :: bridge_loop s1
  termination_by s.length
  decreasing_by
  · obtain ⟨hle, -, hdrop⟩ := read_exact_flat_some h
    have hp : PACKET_LEN = 16 := rfl
    have h1 : s1.length < s.length := by
      rw [hdrop, List.length_drop]; omega
    exact Nat.lt_trans (find_sync_length_lt h2) h1
  · obtain ⟨hle, -, hdrop⟩ := read_exact_flat_some h
    have hp : PACKET_LEN = 16 := rfl
    rw [hdrop, List.length_drop]; omega

/-- The bridge loop with the `sample_count` state made explicit: each
published sample is paired with the value `sample_count` holds just after
publishing it (the acquisition index: `push_sample` then
`sample_count += 1`). -/
def bridge_run (s : List Nat) (count : Nat) : List (Nat × List Nat) :=
  match h : read_exact_flat s PACKET_LEN with
  | none => []
  | some (packet, s1) =>
    if packet_rejected packet then
      match h2 : find_sync s1 with
      | none => []
      | some (_, s2) => bridge_run s2 count
    else
      (count + 1, decode_packet packet) :: bridge_run s1 (count + 1)
  termination_by s.length
  decreasing_by
  · obtain ⟨hle, -, hdrop⟩ := read_exact_flat_some h
    have hp : PACKET_LEN = 16 := rfl
    have h1 : s1.length < s.length := by
      rw [hdrop, List.length_drop]; omega
    exact Nat.lt_trans (find_sync_length_lt h2) h1
  · obtain ⟨hle, -, hdrop⟩ := read_exact_flat_some h
    have hp : PACKET_LEN = 16 := rfl
    rw [hdrop, List.length_drop]; omega

/-- The packets the loop accepts (passes the sanity check on), in the order
their bytes arrive from the source. -/
def acceptedPackets (s : List Nat) : List (List Nat) :=
  match h : read_exact_flat s PACKET_LEN with
  | none => []
  | some (packet, s1) =>
    if packet_rejected packet then
      match h2 : find_sync s1 with
      | none => []
      | some (_, s2) => acceptedPackets s2
    else
      packet :: acceptedPackets s1
  termination_by s.length
  decreasing_by
  · obtain ⟨hle, -, hdrop⟩ := read_exact_flat_some h
    have hp : PACKET_LEN = 16 := rfl
    have h1 : s1.length < s.length := by
      rw [hdrop, List.length_drop]; omega
    exact Nat.lt_trans (find_sync_length_lt h2) h1
  · obtain ⟨hle, -, hdrop⟩ := read_exact_flat_some h
    have hp : PACKET_LEN = 16 := rfl
    rw [hdrop, List.length_drop]; omega

/-!
### The handshake (lines 64–73)

```
ser.write(b"WHORU\n")
time.sleep(0.1)
reply = ser.read(ser.in_waiting or 1)
print("Board replied to WHORU:", reply.decode(errors="ignore").strip())
ser.write(b"START\n")
ser.flush()
```

Straight-line code: the reply is read best-effort (whatever bytes are
waiting, possibly none) and only logged — `decode(errors="ignore")` is
total, so no reply can raise — and `b"START\n"` is then written
unconditionally.  The model records the sequence of serial operations the
handshake performs as a function of the reply it happens to read; `none`
would model an abort, which no branch of the code produces.
-/

/-- One serial-port operation performed by the handshake. -/
inductive SerialOp where
  | write (data : List Nat) : SerialOp
  | readAvail (reply : List Nat) : SerialOp
  | flush : SerialOp
deriving DecidableEq

/-- `b"WHORU\n"` as bytes. -/
def WHORU_CMD : List Nat := [0x57, 0x48, 0x4F, 0x52, 0x55, 0x0A]

/-- `b"START\n"` as bytes. -/
def START_CMD : List Nat := [0x53, 0x54, 0x41, 0x52, 0x54, 0x0A]

/-- The handshake, as the sequence of serial operations it performs given
the reply the board sends to `WHORU` (possibly empty); `none` would be an
abort. -/
def handshake (reply : List Nat) : Option (List SerialOp) :=
  some [SerialOp.write WHORU_CMD, SerialOp.readAvail reply,
    SerialOp.write START_CMD, SerialOp.flush]

/-- The commands a sequence of serial operations writes, in order. -/
def writesOf (ops : List SerialOp) : List (List Nat) :=
  ops.filterMap fun op =>
    match op with
    | SerialOp.write data => some data
    | _ => none

/-!
### Behaviour of `read_exact` over a burst source
-/

/-- Unfolding: an exhausted source inside the accumulation loop blocks. -/
theorem go_nil {data : List Nat} {n : Nat} (h : data.length < n) :
    read_exact_go [] data n = none := by
  rw [read_exact_go.eq_def, dif_pos h]

/-- Unfolding: once `n` bytes are gathered the loop returns them. -/
theorem go_done {ser : List (List Nat)} {data : List Nat} {n : Nat}
    (h : ¬ data.length < n) :
    read_exact_go ser data n = some (data, ser) := by
  rw [read_exact_go.eq_def, dif_neg h]

/-- Unfolding: an empty chunk (a read that timed out) is retried. -/
theorem go_cons_empty {c : List Nat} {cs : List (List Nat)} {data : List Nat} {n : Nat}
    (h : data.length < n) (hc : c.take (n - data.length) = []) :
    read_exact_go (c :: cs) data n = read_exact_go cs data n := by
  rw [read_exact_go.eq_def, dif_pos h]
  simp only [hc]

/-- Unfolding: a non-empty chunk is appended to the gathered data and any
surplus of the front burst stays buffered. -/
theorem go_cons_chunk {c : List Nat} {cs : List (List Nat)} {data : List Nat} {n x : Nat}
    {xs : List Nat} (h : data.length < n) (hc : c.take (n - data.length) = x :: xs) :
    read_exact_go (c :: cs) data n =
      read_exact_go
        (if (c.drop (n - data.length)).isEmpty then cs
         else c.drop (n - data.length) :: cs)
        (data ++ x :: xs) n := by
  rw [read_exact_go.eq_def, dif_pos h]
  simp only [hc]

/-- Main invariant of the accumulation loop, by induction on the measure
`(n - data.length) + bursts.length`: when the bytes still needed are
available somewhere in the source, the loop returns `data` extended with
exactly the next missing bytes, in order, and the leftover source holds
exactly the bytes after them. -/
theorem read_exact_go_spec_aux :
    ∀ (N : Nat) (bursts : List (List Nat)) (data : List Nat) (n : Nat),
      (n - data.length) + bursts.length ≤ N →
      n - data.length ≤ bursts.flatten.length →
      (read_exact_go bursts data n).map (fun r => (r.1, r.2.flatten)) =
        some (data ++ bursts.flatten.take (n - data.length),
          bursts.flatten.drop (n - data.length)) := by
  intro N
  induction N with
  | zero =>
    intro bursts data n hN h
    rw [go_done (by omega)]
    rw [show n - data.length = 0 from by omega]
    simp
  | succ N ih =>
    intro bursts data n hN h
    by_cases hlt : data.length < n
    · cases bursts with
      | nil =>
        exfalso
        simp only [List.flatten_nil, List.length_nil] at h
        omega
      | cons c cs =>
        cases hc : c.take (n - data.length) with
        | nil =>
          have hcnil : c = [] := by
            rcases List.take_eq_nil_iff.mp hc with h0 | h0
            · omega
            · exact h0
          subst hcnil
          rw [go_cons_empty hlt hc]
          simp only [List.length_cons] at hN
          have hyp : n - data.length ≤ cs.flatten.length := by simpa using h
          rw [ih cs data n (by omega) hyp]
          simp
        | cons x xs =>
          rw [go_cons_chunk hlt hc]
          have hchunklen : (x :: xs).length ≤ n - data.length := by
            rw [← hc, List.length_take]
            omega
          have hjoin : c ++ cs.flatten = (x :: xs) ++
              ((if (c.drop (n - data.length)).isEmpty then cs
                else c.drop (n - data.length) :: cs).flatten) := by
            by_cases hd : (c.drop (n - data.length)).isEmpty
            · rw [if_pos hd]
              rw [List.isEmpty_iff] at hd
              conv_lhs => rw [← List.take_append_drop (n - data.length) c]
              rw [hc, hd]
              simp
            · rw [if_neg hd]
              conv_lhs => rw [← List.take_append_drop (n - data.length) c]
              rw [hc]
              simp
          have hlen2 : n - (data ++ x :: xs).length ≤
              ((if (c.drop (n - data.length)).isEmpty then cs
                else c.drop (n - data.length) :: cs).flatten).length := by
            have h1 : (c ++ cs.flatten).length = (x :: xs).length +
                ((if (c.drop (n - data.length)).isEmpty then cs
                  else c.drop (n - data.length) :: cs).flatten).length := by
              rw [hjoin, List.length_append]
            simp only [List.flatten_cons, List.length_append] at h
            simp only [List.length_append, List.length_cons] at h1 ⊢
            omega
          have hbound : (n - (data ++ x :: xs).length) +
              (if (c.drop (n - data.length)).isEmpty then cs
                else c.drop (n - data.length) :: cs).length ≤ N := by
            have hite : (if (c.drop (n - data.length)).isEmpty then cs
                else c.drop (n - data.length) :: cs).length ≤ cs.length + 1 := by
              split <;> simp
            simp only [List.length_cons] at hN
            simp only [List.length_append, List.length_cons]
            omega
          rw [ih _ _ n hbound hlen2]
          simp only [List.flatten_cons, hjoin, Option.some.injEq, Prod.mk.injEq]
          constructor
          · rw [List.take_append_eq_append_take,
              List.take_of_length_le hchunklen]
            simp only [List.length_append, List.length_cons, List.append_assoc]
            congr 2
            congr 1
            simp only [List.length_cons] at hchunklen ⊢
            omega
          · conv_rhs => rw [List.drop_append_eq_append_drop]
            rw [@List.drop_eq_nil_of_le _ (x :: xs) (n - data.length) hchunklen]
            simp only [List.nil_append]
            congr 1
            simp only [List.length_append, List.length_cons] at hchunklen ⊢
            omega
    · rw [go_done hlt]
      rw [show n - data.length = 0 from by omega]
      simp

/-- Specification of `read_exact` over a burst source with enough bytes. -/
theorem read_exact_go_spec (bursts : List (List Nat)) (data : List Nat) (n : Nat)
    (h : n - data.length ≤ bursts.flatten.length) :
    (read_exact_go bursts data n).map (fun r => (r.1, r.2.flatten)) =
      some (data ++ bursts.flatten.take (n - data.length),
        bursts.flatten.drop (n - data.length)) :=
  read_exact_go_spec_aux ((n - data.length) + bursts.length) bursts data n
    (Nat.le_refl _) h

/-- Coherence of the two source models: over a single-burst source,
`read_exact` computes what `read_exact_flat` computes. -/
theorem read_exact_flat_agrees {s : List Nat} {n : Nat} (h : n ≤ s.length) :
    (read_exact [s] n).map (fun r => (r.1, r.2.flatten)) = read_exact_flat s n := by
  rw [read_exact, read_exact_go_spec [s] [] n (by simpa using h),
    read_exact_flat_of_le h]
  simp

/-!
### Unfoldings of the main loop
-/

/-- Unfolding: a source too short for one packet makes the loop block. -/
theorem bridge_loop_short {s : List Nat} (h : s.length < PACKET_LEN) :
    bridge_loop s = [] := by
  rw [bridge_loop.eq_def]
  split
  · rfl
  · next packet s1 heq =>
    obtain ⟨hle, -, -⟩ := read_exact_flat_some heq
    omega

/-- Unfolding: an accepted packet is decoded, published and the loop
continues right after it. -/
theorem bridge_loop_accept {s : List Nat} (hlen : PACKET_LEN ≤ s.length)
    (hacc : packet_rejected (s.take PACKET_LEN) = false) :
    bridge_loop s =
      decode_packet (s.take PACKET_LEN) :: bridge_loop (s.drop PACKET_LEN) := by
  rw [bridge_loop.eq_def]
  split
  · next heq => rw [read_exact_flat_of_le hlen] at heq; exact Option.noConfusion heq
  · next packet s1 heq =>
    obtain ⟨-, hp, hs1⟩ := read_exact_flat_some heq
    subst hp; subst hs1
    rw [if_neg (by simp [hacc])]

/-- Unfolding: after a rejected packet, the packet `find_sync` assembles is
discarded (overwritten on the next iteration) and the loop continues with
the bytes after it. -/
theorem bridge_loop_reject_found {s p s2 : List Nat} (hlen : PACKET_LEN ≤ s.length)
    (hrej : packet_rejected (s.take PACKET_LEN) = true)
    (hfind : find_sync (s.drop PACKET_LEN) = some (p, s2)) :
    bridge_loop s = bridge_loop s2 := by
  rw [bridge_loop.eq_def]
  split
  · next heq => rw [read_exact_flat_of_le hlen] at heq; exact Option.noConfusion heq
  · next packet s1 heq =>
    obtain ⟨-, hp, hs1⟩ := read_exact_flat_some heq
    subst hp; subst hs1
    rw [if_pos hrej]
    split
    · next heq2 => rw [hfind] at heq2; exact Option.noConfusion heq2
    · next q s2' heq2 =>
      rw [hfind] at heq2
      simp only [Option.some.injEq, Prod.mk.injEq] at heq2
      rw [heq2.2]

/-- Unfolding: after a rejected packet, a resynchronization that never
completes blocks the loop. -/
theorem bridge_loop_reject_lost {s : List Nat} (hlen : PACKET_LEN ≤ s.length)
    (hrej : packet_rejected (s.take PACKET_LEN) = true)
    (hfind : find_sync (s.drop PACKET_LEN) = none) :
    bridge_loop s = [] := by
  rw [bridge_loop.eq_def]
  split
  · rfl
  · next packet s1 heq =>
    obtain ⟨-, hp, hs1⟩ := read_exact_flat_some heq
    subst hp; subst hs1
    rw [if_pos hrej]
    split
    · rfl
    · next q s2' heq2 => rw [hfind] at heq2; exact Option.noConfusion heq2

/-- Unfolding of `bridge_run`, short-source case. -/
theorem bridge_run_short {s : List Nat} {c : Nat} (h : s.length < PACKET_LEN) :
    bridge_run s c = [] := by
  rw [bridge_run.eq_def]
  split
  · rfl
  · next packet s1 heq =>
    obtain ⟨hle, -, -⟩ := read_exact_flat_some heq
    omega

/-- Unfolding of `bridge_run`, accepted-packet case: the published sample
carries the incremented `sample_count`. -/
theorem bridge_run_accept {s : List Nat} {c : Nat} (hlen : PACKET_LEN ≤ s.length)
    (hacc : packet_rejected (s.take PACKET_LEN) = false) :
    bridge_run s c =
      (c + 1, decode_packet (s.take PACKET_LEN)) ::
        bridge_run (s.drop PACKET_LEN) (c + 1) := by
  rw [bridge_run.eq_def]
  split
  · next heq => rw [read_exact_flat_of_le hlen] at heq; exact Option.noConfusion heq
  · next packet s1 heq =>
    obtain ⟨-, hp, hs1⟩ := read_exact_flat_some heq
    subst hp; subst hs1
    rw [if_neg (by simp [hacc])]

/-- Unfolding of `bridge_run`, rejected-packet case with successful
resynchronization: `sample_count` is not advanced. -/
theorem bridge_run_reject_found {s p s2 : List Nat} {c : Nat}
    (hlen : PACKET_LEN ≤ s.length)
    (hrej : packet_rejected (s.take PACKET_LEN) = true)
    (hfind : find_sync (s.drop PACKET_LEN) = some (p, s2)) :
    bridge_run s c = bridge_run s2 c := by
  rw [bridge_run.eq_def]
  split
  · next heq => rw [read_exact_flat_of_le hlen] at heq; exact Option.noConfusion heq
  · next packet s1 heq =>
    obtain ⟨-, hp, hs1⟩ := read_exact_flat_some heq
    subst hp; subst hs1
    rw [if_pos hrej]
    split
    · next heq2 => rw [hfind] at heq2; exact Option.noConfusion heq2
    · next q s2' heq2 =>
      rw [hfind] at heq2
      simp only [Option.some.injEq, Prod.mk.injEq] at heq2
      rw [heq2.2]

/-- Unfolding of `bridge_run`, rejected-packet case with failed
resynchronization. -/
theorem bridge_run_reject_lost {s : List Nat} {c : Nat}
    (hlen : PACKET_LEN ≤ s.length)
    (hrej : packet_rejected (s.take PACKET_LEN) = true)
    (hfind : find_sync (s.drop PACKET_LEN) = none) :
    bridge_run s c = [] := by
  rw [bridge_run.eq_def]
  split
  · rfl
  · next packet s1 heq =>
    obtain ⟨-, hp, hs1⟩ := read_exact_flat_some heq
    subst hp; subst hs1
    rw [if_pos hrej]
    split
    · rfl
    · next q s2' heq2 => rw [hfind] at heq2; exact Option.noConfusion heq2

/-- Unfolding of `acceptedPackets`, short-source case. -/
theorem acceptedPackets_short {s : List Nat} (h : s.length < PACKET_LEN) :
    acceptedPackets s = [] := by
  rw [acceptedPackets.eq_def]
  split
  · rfl
  · next packet s1 heq =>
    obtain ⟨hle, -, -⟩ := read_exact_flat_some heq
    omega

/-- Unfolding of `acceptedPackets`, accepted-packet case. -/
theorem acceptedPackets_accept {s : List Nat} (hlen : PACKET_LEN ≤ s.length)
    (hacc : packet_rejected (s.take PACKET_LEN) = false) :
    acceptedPackets s = s.take PACKET_LEN :: acceptedPackets (s.drop PACKET_LEN) := by
  rw [acceptedPackets.eq_def]
  split
  · next heq => rw [read_exact_flat_of_le hlen] at heq; exact Option.noConfusion heq
  · next packet s1 heq =>
    obtain ⟨-, hp, hs1⟩ := read_exact_flat_some heq
    subst hp; subst hs1
    rw [if_neg (by simp [hacc])]

/-- Unfolding of `acceptedPackets`, rejected-packet case with successful
resynchronization. -/
theorem acceptedPackets_reject_found {s p s2 : List Nat}
    (hlen : PACKET_LEN ≤ s.length)
    (hrej : packet_rejected (s.take PACKET_LEN) = true)
    (hfind : find_sync (s.drop PACKET_LEN) = some (p, s2)) :
    acceptedPackets s = acceptedPackets s2 := by
  rw [acceptedPackets.eq_def]
  split
  · next heq => rw [read_exact_flat_of_le hlen] at heq; exact Option.noConfusion heq
  · next packet s1 heq =>
    obtain ⟨-, hp, hs1⟩ := read_exact_flat_some heq
    subst hp; subst hs1
    rw [if_pos hrej]
    split
    · next heq2 => rw [hfind] at heq2; exact Option.noConfusion heq2
    · next q s2' heq2 =>
      rw [hfind] at heq2
      simp only [Option.some.injEq, Prod.mk.injEq] at heq2
      rw [heq2.2]

/-- Unfolding of `acceptedPackets`, rejected-packet case with failed
resynchronization. -/
theorem acceptedPackets_reject_lost {s : List Nat}
    (hlen : PACKET_LEN ≤ s.length)
    (hrej : packet_rejected (s.take PACKET_LEN) = true)
    (hfind : find_sync (s.drop PACKET_LEN) = none) :
    acceptedPackets s = [] := by
  rw [acceptedPackets.eq_def]
  split
  · rfl
  · next packet s1 heq =>
    obtain ⟨-, hp, hs1⟩ := read_exact_flat_some heq
    subst hp; subst hs1
    rw [if_pos hrej]
    split
    · rfl
    · next q s2' heq2 => rw [hfind] at heq2; exact Option.noConfusion heq2

/-- Reading one packet strictly shortens the modelled source. -/
theorem drop_packet_len_lt {s : List Nat} (hlen : PACKET_LEN ≤ s.length) :
    (s.drop PACKET_LEN).length < s.length := by
  rw [List.length_drop]
  have hp : PACKET_LEN = 16 := rfl
  omega

/-- The published samples are exactly the accepted packets, decoded, in
arrival order: `sample_count` influences neither which samples appear nor
their order. -/
theorem bridge_run_snd (s : List Nat) (c : Nat) :
    (bridge_run s c).map Prod.snd = (acceptedPackets s).map decode_packet := by
  by_cases hlen : PACKET_LEN ≤ s.length
  · by_cases hrej : packet_rejected (s.take PACKET_LEN) = true
    · cases hfind : find_sync (s.drop PACKET_LEN) with
      | none =>
        rw [bridge_run_reject_lost hlen hrej hfind,
          acceptedPackets_reject_lost hlen hrej hfind]
        rfl
      | some pr =>
        obtain ⟨p, s2⟩ := pr
        rw [bridge_run_reject_found hlen hrej hfind,
          acceptedPackets_reject_found hlen hrej hfind]
        exact bridge_run_snd s2 c
    · rw [bridge_run_accept hlen (by simpa using hrej),
        acceptedPackets_accept hlen (by simpa using hrej)]
      simp only [List.map_cons]
      rw [bridge_run_snd (s.drop PACKET_LEN) (c + 1)]
  · rw [bridge_run_short (by omega), acceptedPackets_short (by omega)]
    rfl
  termination_by s.length
  decreasing_by
  · exact Nat.lt_trans (find_sync_length_lt hfind) (drop_packet_len_lt hlen)
  · exact drop_packet_len_lt hlen

/-- The acquisition indices of the published samples are consecutive,
starting right above the entry value of `sample_count`. -/
theorem bridge_run_fst (s : List Nat) (c : Nat) :
    (bridge_run s c).map Prod.fst = List.range' (c + 1) (bridge_run s c).length := by
  by_cases hlen : PACKET_LEN ≤ s.length
  · by_cases hrej : packet_rejected (s.take PACKET_LEN) = true
    · cases hfind : find_sync (s.drop PACKET_LEN) with
      | none => rw [bridge_run_reject_lost hlen hrej hfind]; rfl
      | some pr =>
        obtain ⟨p, s2⟩ := pr
        rw [bridge_run_reject_found hlen hrej hfind]
        exact bridge_run_fst s2 c
    · rw [bridge_run_accept hlen (by simpa using hrej)]
      simp only [List.map_cons, List.length_cons, List.range'_succ]
      rw [bridge_run_fst (s.drop PACKET_LEN) (c + 1)]
  · rw [bridge_run_short (by omega)]; rfl
  termination_by s.length
  decreasing_by
  · exact Nat.lt_trans (find_sync_length_lt hfind) (drop_packet_len_lt hlen)
  · exact drop_packet_len_lt hlen

/-- The scan of `find_sync` runs straight through noise it consumes cleanly
and returns the packet that follows. -/
theorem find_sync_after_clean_noise :
    ∀ {noise : List Nat}, scan_consumes noise = true →
    ∀ {body rest : List Nat}, body.length = PACKET_LEN - 2 →
    find_sync (noise ++ (SYNC_BYTE_1 :: SYNC_BYTE_2 :: body) ++ rest) =
      some (SYNC_BYTE_1 :: SYNC_BYTE_2 :: body, rest) := by
  intro noise
  induction noise using scan_consumes.induct with
  | case1 =>
    intro _ body rest hbody
    simp only [List.nil_append, List.cons_append, List.append_assoc]
    rw [find_sync_m1_m2 (by rw [List.length_append]; omega)]
    rw [List.take_left' hbody, List.drop_left' hbody]
  | case2 b rest' hb ih =>
    intro hscan body rest hbody
    rw [scan_consumes.eq_def] at hscan
    simp only [if_pos hb] at hscan
    simp only [List.cons_append, List.append_assoc] at ih ⊢
    rw [find_sync_cons_ne hb]
    exact ih hscan hbody
  | case3 b hb =>
    intro hscan body rest hbody
    rw [not_ne_iff] at hb; subst hb
    rw [scan_consumes.eq_def] at hscan
    simp at hscan
  | case4 b hb b2 rest2 hb2 ih =>
    intro hscan body rest hbody
    rw [not_ne_iff] at hb; subst hb
    rw [scan_consumes.eq_def] at hscan
    simp only [ne_eq, not_true_eq_false, if_false, if_pos hb2] at hscan
    simp only [List.cons_append, List.append_assoc] at ih ⊢
    rw [find_sync_m1_ne hb2]
    exact ih hscan hbody
  | case5 b hb b2 rest2 hb2 =>
    intro hscan body rest hbody
    rw [not_ne_iff] at hb; subst hb
    rw [scan_consumes.eq_def] at hscan
    simp [ne_eq, hb2] at hscan

/-- Bytes read from a Python `bytes` object are below 256; `getD` then
stays below 256 (out-of-range reads give the default 0). -/
theorem getD_lt_256 {p : List Nat} (h : ∀ b ∈ p, b < 256) (j : Nat) :
    p.getD j 0 < 256 := by
  by_cases hj : j < p.length
  · rw [List.getD_eq_getElem?_getD, List.getElem?_eq_getElem hj]
    exact h _ (List.getElem_mem hj)
  · rw [List.getD_eq_getElem?_getD, List.getElem?_eq_none (by omega)]
    decide

/-- A big-endian 16-bit word assembled from two bytes stays below 2^16. -/
theorem word_le_65535 {x y : Nat} (hx : x < 256) (hy : y < 256) :
    (x <<< 8) ||| y ≤ 65535 := by
  have h1 : x <<< 8 < 2 ^ 16 := by
    rw [Nat.shiftLeft_eq]
    have hm : x * 2 ^ 8 < 256 * 2 ^ 8 :=
      Nat.mul_lt_mul_of_lt_of_le hx (Nat.le_refl _) (by norm_num)
    omega
  have h2 : y < 2 ^ 16 := by omega
  have := Nat.or_lt_two_pow h1 h2
  omega

/-- Python indexing `packet[-1]` on a 16-byte packet is indexing at 15. -/
theorem getLastD_eq_getD_15 {p : List Nat} (h : p.length = 16) :
    p.getLastD 0 = p.getD 15 0 := by
  rw [List.getLastD_eq_getLast?, List.getLast?_eq_getElem?,
    List.getD_eq_getElem?_getD, h]

/-- Claim C1, counterexample: the byte source holds one stray `0xC7` and
then a complete well-formed frame whose marker pair starts immediately
after it.  The claim says scanning resumes from the second byte, so the
frame is found and returned; the code consumes the second byte together
with the stray candidate, scans the remainder of the frame as noise, and
blocks without returning any frame. -/
theorem claim_C1_counterexample :
    find_sync [0xC7, 0xC7, 0x7C, 0x00, 0x00, 0x01, 0x00, 0x02, 0x00, 0x03, 0x00,
      0x04, 0x00, 0x05, 0x00, 0x06, 0x01] = none := by
  decide

/-- Claim C1, amended: when the byte read after a candidate `M1` is not
`M2`, BOTH bytes are consumed and scanning resumes from the third byte;
the second byte does not become the next candidate `M1`, so a true marker
pair whose first byte immediately follows a stray `M1` is missed. -/
theorem claim_C1_amended (b2 : Nat) (rest : List Nat) (hb2 : b2 ≠ SYNC_BYTE_2) :
    find_sync (SYNC_BYTE_1 :: b2 :: rest) = find_sync rest :=
  find_sync_m1_ne hb2

/-- Witness for `claim_C1_amended` at `b2 = 0xC7`, `rest = [0x7C]`. -/
theorem claim_C1_amended_witness :
    find_sync (SYNC_BYTE_1 :: 0xC7 :: [0x7C]) = find_sync [0x7C] :=
  claim_C1_amended 0xC7 [0x7C] (by decide)

/-- Claim C2, counterexample: a frame with correct markers but terminator
`0x02`, immediately followed by a well-formed frame decoding to
`[1, 2, 3, 4, 5, 6]`, then another well-formed frame decoding to
`[7, 7, 7, 7, 7, 7]`.  The claim says the first well-formed frame after
the rejected one is decoded and published; the code consumes it inside
`find_sync` for realignment and publishes only the frame after it. -/
theorem claim_C2_counterexample :
    bridge_loop ([0xC7, 0x7C, 0x00, 0x00, 0x01, 0x00, 0x02, 0x00, 0x03, 0x00,
        0x04, 0x00, 0x05, 0x00, 0x06, 0x02] ++
      [0xC7, 0x7C, 0x00, 0x00, 0x01, 0x00, 0x02, 0x00, 0x03, 0x00, 0x04, 0x00,
        0x05, 0x00, 0x06, 0x01] ++
      [0xC7, 0x7C, 0x00, 0x00, 0x07, 0x00, 0x07, 0x00, 0x07, 0x00, 0x07, 0x00,
        0x07, 0x00, 0x07, 0x01]) = [[7, 7, 7, 7, 7, 7]] ∧
    decode_packet [0xC7, 0x7C, 0x00, 0x00, 0x01, 0x00, 0x02, 0x00, 0x03, 0x00,
      0x04, 0x00, 0x05, 0x00, 0x06, 0x01] = [1, 2, 3, 4, 5, 6] ∧
    [1, 2, 3, 4, 5, 6] ∉
      bridge_loop ([0xC7, 0x7C, 0x00, 0x00, 0x01, 0x00, 0x02, 0x00, 0x03, 0x00,
          0x04, 0x00, 0x05, 0x00, 0x06, 0x02] ++
        [0xC7, 0x7C, 0x00, 0x00, 0x01, 0x00, 0x02, 0x00, 0x03, 0x00, 0x04, 0x00,
          0x05, 0x00, 0x06, 0x01] ++
        [0xC7, 0x7C, 0x00, 0x00, 0x07, 0x00, 0x07, 0x00, 0x07, 0x00, 0x07, 0x00,
          0x07, 0x00, 0x07, 0x01]) := by
  have hlen : PACKET_LEN ≤ (([0xC7, 0x7C, 0x00, 0x00, 0x01, 0x00, 0x02, 0x00,
      0x03, 0x00, 0x04, 0x00, 0x05, 0x00, 0x06, 0x02] ++
    [0xC7, 0x7C, 0x00, 0x00, 0x01, 0x00, 0x02, 0x00, 0x03, 0x00, 0x04, 0x00,
      0x05, 0x00, 0x06, 0x01] ++
    [0xC7, 0x7C, 0x00, 0x00, 0x07, 0x00, 0x07, 0x00, 0x07, 0x00, 0x07, 0x00,
      0x07, 0x00, 0x07, 0x01] : List Nat)).length := by decide
  have hrej : packet_rejected ((([0xC7, 0x7C, 0x00, 0x00, 0x01, 0x00, 0x02, 0x00,
      0x03, 0x00, 0x04, 0x00, 0x05, 0x00, 0x06, 0x02] ++
    [0xC7, 0x7C, 0x00, 0x00, 0x01, 0x00, 0x02, 0x00, 0x03, 0x00, 0x04, 0x00,
      0x05, 0x00, 0x06, 0x01] ++
    [0xC7, 0x7C, 0x00, 0x00, 0x07, 0x00, 0x07, 0x00, 0x07, 0x00, 0x07, 0x00,
      0x07, 0x00, 0x07, 0x01] : List Nat)).take PACKET_LEN) = true := by decide
  have hfind : find_sync ((([0xC7, 0x7C, 0x00, 0x00, 0x01, 0x00, 0x02, 0x00,
      0x03, 0x00, 0x04, 0x00, 0x05, 0x00, 0x06, 0x02] ++
    [0xC7, 0x7C, 0x00, 0x00, 0x01, 0x00, 0x02, 0x00, 0x03, 0x00, 0x04, 0x00,
      0x05, 0x00, 0x06, 0x01] ++
    [0xC7, 0x7C, 0x00, 0x00, 0x07, 0x00, 0x07, 0x00, 0x07, 0x00, 0x07, 0x00,
      0x07, 0x00, 0x07, 0x01] : List Nat)).drop PACKET_LEN) =
      some ([0xC7, 0x7C, 0x00, 0x00, 0x01, 0x00, 0x02, 0x00, 0x03, 0x00, 0x04,
        0x00, 0x05, 0x00, 0x06, 0x01],
        [0xC7, 0x7C, 0x00, 0x00, 0x07, 0x00, 0x07, 0x00, 0x07, 0x00, 0x07, 0x00,
          0x07, 0x00, 0x07, 0x01]) := by decide
  have h2len : PACKET_LEN ≤ ([0xC7, 0x7C, 0x00, 0x00, 0x07, 0x00, 0x07, 0x00,
      0x07, 0x00, 0x07, 0x00, 0x07, 0x00, 0x07, 0x01] : List Nat).length := by decide
  have h2acc : packet_rejected (([0xC7, 0x7C, 0x00, 0x00, 0x07, 0x00, 0x07, 0x00,
      0x07, 0x00, 0x07, 0x00, 0x07, 0x00, 0x07, 0x01] : List Nat).take PACKET_LEN)
      = false := by decide
  have h2short : (([0xC7, 0x7C, 0x00, 0x00, 0x07, 0x00, 0x07, 0x00, 0x07, 0x00,
      0x07, 0x00, 0x07, 0x00, 0x07, 0x01] : List Nat).drop PACKET_LEN).length <
      PACKET_LEN := by decide
  have hbig : bridge_loop ([0xC7, 0x7C, 0x00, 0x00, 0x01, 0x00, 0x02, 0x00, 0x03,
      0x00, 0x04, 0x00, 0x05, 0x00, 0x06, 0x02] ++
    [0xC7, 0x7C, 0x00, 0x00, 0x01, 0x00, 0x02, 0x00, 0x03, 0x00, 0x04, 0x00,
      0x05, 0x00, 0x06, 0x01] ++
    [0xC7, 0x7C, 0x00, 0x00, 0x07, 0x00, 0x07, 0x00, 0x07, 0x00, 0x07, 0x00,
      0x07, 0x00, 0x07, 0x01]) = [[7, 7, 7, 7, 7, 7]] := by
    rw [bridge_loop_reject_found hlen hrej hfind,
      bridge_loop_accept h2len h2acc, bridge_loop_short h2short]
    decide
  exact ⟨hbig, by decide, by rw [hbig]; decide⟩

/-- Claim C2, amended: the rejected frame is discarded in its entirety (no
byte of it is reused), but the very next correctly framed packet after it
is consumed by `find_sync` for realignment and is NOT published; decoding
resumes with the bytes after that packet, so the loop behaves on
`bad ++ good ++ rest` exactly as it behaves on `rest`. -/
theorem claim_C2_amended (bad goodbody rest : List Nat)
    (hbadlen : bad.length = PACKET_LEN)
    (hm1 : bad.getD 0 0 = SYNC_BYTE_1)
    (hm2 : bad.getD 1 0 = SYNC_BYTE_2)
    (hterm : bad.getLastD 0 ≠ END_BYTE)
    (hbody : goodbody.length = PACKET_LEN - 2) :
    bridge_loop (bad ++ (SYNC_BYTE_1 :: SYNC_BYTE_2 :: goodbody) ++ rest) =
      bridge_loop rest := by
  rw [List.append_assoc]
  have hs : (bad ++ ((SYNC_BYTE_1 :: SYNC_BYTE_2 :: goodbody) ++ rest)).take
      PACKET_LEN = bad := List.take_left' hbadlen
  have hd : (bad ++ ((SYNC_BYTE_1 :: SYNC_BYTE_2 :: goodbody) ++ rest)).drop
      PACKET_LEN = (SYNC_BYTE_1 :: SYNC_BYTE_2 :: goodbody) ++ rest :=
    List.drop_left' hbadlen
  have hlen : PACKET_LEN ≤ (bad ++ ((SYNC_BYTE_1 :: SYNC_BYTE_2 :: goodbody) ++
      rest)).length := by
    simp only [List.length_append, List.length_cons]
    omega
  have hrej : packet_rejected bad = true := by
    simp only [packet_rejected, Bool.or_eq_true, bne_iff_ne, ne_eq]
    exact Or.inr hterm
  have hfind : find_sync ((SYNC_BYTE_1 :: SYNC_BYTE_2 :: goodbody) ++ rest) =
      some (SYNC_BYTE_1 :: SYNC_BYTE_2 :: goodbody, rest) := by
    simp only [List.cons_append]
    rw [find_sync_m1_m2 (by rw [List.length_append]; omega)]
    rw [List.take_left' hbody, List.drop_left' hbody]
  exact bridge_loop_reject_found hlen (by rw [hs]; exact hrej)
    (by rw [hd]; exact hfind)

/-- Witness for `claim_C2_amended`: a concrete bad frame (terminator
`0x02`) followed by one well-formed frame, with an empty remainder. -/
theorem claim_C2_amended_witness :
    bridge_loop ([0xC7, 0x7C, 0x00, 0x00, 0x01, 0x00, 0x02, 0x00, 0x03, 0x00,
      0x04, 0x00, 0x05, 0x00, 0x06, 0x02] ++
      (SYNC_BYTE_1 :: SYNC_BYTE_2 :: [0x00, 0x00, 0x01, 0x00, 0x02, 0x00, 0x03,
        0x00, 0x04, 0x00, 0x05, 0x00, 0x06, 0x01]) ++ []) = bridge_loop [] :=
  claim_C2_amended _ _ _ (by decide) (by decide) (by decide) (by decide) (by decide)

/-- Claim C3, counterexample: two noise bytes `[0x00, 0xC7]` precede a
well-formed frame.  The noise contains no marker pair and no spurious
terminator pattern, so the claim says the synchronizer returns the frame;
the code pairs the trailing noise byte `0xC7` with the frame's first byte,
discards both, and blocks without returning any frame. -/
theorem claim_C3_counterexample :
    find_sync ([0x00, 0xC7] ++ [0xC7, 0x7C, 0x00, 0x00, 0x09, 0x00, 0x0A, 0x00,
      0x0B, 0x00, 0x0C, 0x00, 0x0D, 0x00, 0x0E, 0x01]) = none := by
  decide

/-- Claim C3, amended: the synchronizer locates and returns the embedded
frame, consuming all preceding noise, provided the noise is consumed
cleanly by the scan — the pairwise scan (in which each candidate `M1`
consumes and discards the byte after it) meets no marker pair inside the
noise and leaves no trailing candidate `M1` that would swallow the frame's
first byte. -/
theorem claim_C3_amended (noise body rest : List Nat)
    (hnoise : scan_consumes noise = true)
    (hbody : body.length = PACKET_LEN - 2) :
    find_sync (noise ++ (SYNC_BYTE_1 :: SYNC_BYTE_2 :: body) ++ rest) =
      some (SYNC_BYTE_1 :: SYNC_BYTE_2 :: body, rest) :=
  find_sync_after_clean_noise hnoise hbody

/-- Witness for `claim_C3_amended`: noise `[0x00, 0x05, 0xC7, 0xC7]` (the
stray `0xC7` pair is consumed pairwise), a 14-byte frame body, and one
trailing byte. -/
theorem claim_C3_amended_witness :
    find_sync ([0x00, 0x05, 0xC7, 0xC7] ++
      (SYNC_BYTE_1 :: SYNC_BYTE_2 :: [0x00, 0x00, 0x09, 0x00, 0x0A, 0x00, 0x0B,
        0x00, 0x0C, 0x00, 0x0D, 0x00, 0x0E, 0x01]) ++ [0xAA]) =
      some (SYNC_BYTE_1 :: SYNC_BYTE_2 :: [0x00, 0x00, 0x09, 0x00, 0x0A, 0x00,
        0x0B, 0x00, 0x0C, 0x00, 0x0D, 0x00, 0x0E, 0x01], [0xAA]) :=
  claim_C3_amended _ _ _ (by decide) (by decide)

/-- Claim C4: decoding is a pure function of the packet bytes, yields
exactly `NUM_CHANNELS = 6` values, the i-th equal to
`(packet[3 + 2*i] << 8) | packet[3 + 2*i + 1]` (big-endian, no scaling),
and the concrete frame of the spec decodes to `[1, 2, 3, 4, 5, 6]`
(Python `float` is exact on `0..65535`, so the values are modelled by the
integers themselves). -/
theorem claim_C4_decode :
    ∀ (packet : List Nat),
      (decode_packet packet).length = NUM_CHANNELS ∧
      (∀ i, i < NUM_CHANNELS →
        (decode_packet packet).getD i 0 =
          ((packet.getD (3 + 2 * i) 0) <<< 8) ||| (packet.getD (3 + 2 * i + 1) 0)) ∧
      decode_packet [0xC7, 0x7C, 0x00, 0x00, 0x01, 0x00, 0x02, 0x00, 0x03, 0x00,
        0x04, 0x00, 0x05, 0x00, 0x06, 0x01] = [1, 2, 3, 4, 5, 6] := by
  intro packet
  refine ⟨by simp [decode_packet], ?_, by decide⟩
  intro i hi
  have h6 : NUM_CHANNELS = 6 := rfl
  rw [h6] at hi
  interval_cases i <;> rfl

/-- Witness for `claim_C4_decode` at channel `i = 2` of the concrete
frame. -/
theorem claim_C4_decode_witness :
    (decode_packet [0xC7, 0x7C, 0x00, 0x00, 0x01, 0x00, 0x02, 0x00, 0x03, 0x00,
        0x04, 0x00, 0x05, 0x00, 0x06, 0x01]).getD 2 0 =
      ((([0xC7, 0x7C, 0x00, 0x00, 0x01, 0x00, 0x02, 0x00, 0x03, 0x00, 0x04,
        0x00, 0x05, 0x00, 0x06, 0x01] : List Nat).getD (3 + 2 * 2) 0) <<< 8) |||
        ([0xC7, 0x7C, 0x00, 0x00, 0x01, 0x00, 0x02, 0x00, 0x03, 0x00, 0x04,
          0x00, 0x05, 0x00, 0x06, 0x01] : List Nat).getD (3 + 2 * 2 + 1) 0 :=
  (claim_C4_decode [0xC7, 0x7C, 0x00, 0x00, 0x01, 0x00, 0x02, 0x00, 0x03, 0x00,
    0x04, 0x00, 0x05, 0x00, 0x06, 0x01]).2.1 2 (by decide)

/-- Claim C5: a 16-byte packet is accepted iff byte 0 is `SYNC_BYTE_1`,
byte 1 is `SYNC_BYTE_2` and byte 15 (the last byte) is `END_BYTE`; no
other byte influences the decision (two packets agreeing on those three
bytes get the same decision); and the concrete 16-byte buffer with
terminator `0x02` is rejected and the loop publishes nothing from it. -/
theorem claim_C5_validator :
    ∀ (p q : List Nat), p.length = 16 → q.length = 16 →
      q.getD 0 0 = p.getD 0 0 → q.getD 1 0 = p.getD 1 0 →
      q.getD 15 0 = p.getD 15 0 →
      ((packet_rejected p = false) ↔
        (p.getD 0 0 = SYNC_BYTE_1 ∧ p.getD 1 0 = SYNC_BYTE_2 ∧
          p.getD 15 0 = END_BYTE)) ∧
      packet_rejected q = packet_rejected p ∧
      packet_rejected [0xC7, 0x7C, 0x00, 0x00, 0x01, 0x00, 0x02, 0x00, 0x03,
        0x00, 0x04, 0x00, 0x05, 0x00, 0x06, 0x02] = true ∧
      bridge_loop [0xC7, 0x7C, 0x00, 0x00, 0x01, 0x00, 0x02, 0x00, 0x03, 0x00,
        0x04, 0x00, 0x05, 0x00, 0x06, 0x02] = [] := by
  intro p q hp hq h0 h1 h15
  refine ⟨?_, ?_, by decide, ?_⟩
  · simp only [packet_rejected, getLastD_eq_getD_15 hp, Bool.or_eq_false_iff,
      bne_eq_false_iff_eq]
    constructor
    · rintro ⟨⟨ha, hb⟩, hc⟩; exact ⟨ha, hb, hc⟩
    · rintro ⟨ha, hb, hc⟩; exact ⟨⟨ha, hb⟩, hc⟩
  · simp only [packet_rejected, getLastD_eq_getD_15 hp, getLastD_eq_getD_15 hq,
      h0, h1, h15]
  · have hlen : PACKET_LEN ≤ ([0xC7, 0x7C, 0x00, 0x00, 0x01, 0x00, 0x02, 0x00,
        0x03, 0x00, 0x04, 0x00, 0x05, 0x00, 0x06, 0x02] : List Nat).length := by
      decide
    have hrej : packet_rejected (([0xC7, 0x7C, 0x00, 0x00, 0x01, 0x00, 0x02,
        0x00, 0x03, 0x00, 0x04, 0x00, 0x05, 0x00, 0x06, 0x02] :
        List Nat).take PACKET_LEN) = true := by decide
    have hfind : find_sync (([0xC7, 0x7C, 0x00, 0x00, 0x01, 0x00, 0x02, 0x00,
        0x03, 0x00, 0x04, 0x00, 0x05, 0x00, 0x06, 0x02] :
        List Nat).drop PACKET_LEN) = none := by decide
    exact bridge_loop_reject_lost hlen hrej hfind

/-- Witness for `claim_C5_validator` at the concrete well-formed frame. -/
theorem claim_C5_validator_witness :
    (packet_rejected [0xC7, 0x7C, 0x00, 0x00, 0x01, 0x00, 0x02, 0x00, 0x03,
        0x00, 0x04, 0x00, 0x05, 0x00, 0x06, 0x01] = false) ↔
      (([0xC7, 0x7C, 0x00, 0x00, 0x01, 0x00, 0x02, 0x00, 0x03, 0x00, 0x04,
          0x00, 0x05, 0x00, 0x06, 0x01] : List Nat).getD 0 0 = SYNC_BYTE_1 ∧
        ([0xC7, 0x7C, 0x00, 0x00, 0x01, 0x00, 0x02, 0x00, 0x03, 0x00, 0x04,
          0x00, 0x05, 0x00, 0x06, 0x01] : List Nat).getD 1 0 = SYNC_BYTE_2 ∧
        ([0xC7, 0x7C, 0x00, 0x00, 0x01, 0x00, 0x02, 0x00, 0x03, 0x00, 0x04,
          0x00, 0x05, 0x00, 0x06, 0x01] : List Nat).getD 15 0 = END_BYTE) :=
  (claim_C5_validator [0xC7, 0x7C, 0x00, 0x00, 0x01, 0x00, 0x02, 0x00, 0x03,
      0x00, 0x04, 0x00, 0x05, 0x00, 0x06, 0x01]
    [0xC7, 0x7C, 0x00, 0x00, 0x01, 0x00, 0x02, 0x00, 0x03, 0x00, 0x04, 0x00,
      0x05, 0x00, 0x06, 0x01]
    (by decide) (by decide) rfl rfl rfl).1

/-- Claim C6: over any modelled byte source and any entry value of
`sample_count`, the published samples are exactly the accepted packets
decoded, in arrival order (no reordering, no batching, no drop), and the
acquisition indices are consecutive — each published sample increments
`sample_count` by exactly one. -/
theorem claim_C6_ordering :
    ∀ (s : List Nat) (c : Nat),
      (bridge_run s c).map Prod.fst =
        List.range' (c + 1) (bridge_run s c).length ∧
      (bridge_run s c).map Prod.snd =
        (acceptedPackets s).map decode_packet :=
  fun s c => ⟨bridge_run_fst s c, bridge_run_snd s c⟩

/-- Claim C7: two 16-byte frames differing only in the counter byte at
offset 2 get the same validation decision and decode to the same sample
(noninterference of the counter byte). -/
theorem claim_C7_counter_noninterference :
    ∀ (b0 b1 cnta cntb b3 b4 b5 b6 b7 b8 b9 b10 b11 b12 b13 b14 b15 : Nat),
      packet_rejected [b0, b1, cnta, b3, b4, b5, b6, b7, b8, b9, b10, b11, b12,
          b13, b14, b15] =
        packet_rejected [b0, b1, cntb, b3, b4, b5, b6, b7, b8, b9, b10, b11,
          b12, b13, b14, b15] ∧
      decode_packet [b0, b1, cnta, b3, b4, b5, b6, b7, b8, b9, b10, b11, b12,
          b13, b14, b15] =
        decode_packet [b0, b1, cntb, b3, b4, b5, b6, b7, b8, b9, b10, b11, b12,
          b13, b14, b15] :=
  fun _ _ _ _ _ _ _ _ _ _ _ _ _ _ _ _ _ => ⟨rfl, rfl⟩

/-- Claim C8: whatever the reply to the identification request — empty or
arbitrary — the handshake never aborts and the start-streaming command is
written unconditionally: the operations performed are exactly
write `WHORU`, best-effort read, write `START`, flush. -/
theorem claim_C8_handshake :
    ∀ (reply : List Nat),
      (handshake reply).isSome = true ∧
      (handshake reply).map writesOf = some [WHORU_CMD, START_CMD] :=
  fun _ => ⟨rfl, rfl⟩

/-- Claim C9: over any burst source holding at least `n` bytes in total,
`read_exact` returns exactly the first `n` bytes of the source in order
(so the result has length `n`, nothing is dropped or duplicated, and
zero-length chunks are merely retried), leaving exactly the bytes after
them; and `read_exact` with `n = 0` returns the empty result without
touching the source. -/
theorem claim_C9_read_exact :
    ∀ (bursts : List (List Nat)) (n : Nat),
      (n ≤ bursts.flatten.length →
        (read_exact bursts n).map (fun r => (r.1, r.2.flatten)) =
          some (bursts.flatten.take n, bursts.flatten.drop n)) ∧
      read_exact bursts 0 = some ([], bursts) := by
  intro bursts n
  constructor
  · intro h
    rw [read_exact, read_exact_go_spec bursts [] n (by simpa using h)]
    simp
  · rw [read_exact, go_done (by decide)]

/-- Witness for `claim_C9_read_exact`: a source of four bursts — two
bytes, a zero-length read, one byte, three bytes — read for `n = 4`. -/
theorem claim_C9_read_exact_witness :
    (read_exact [[1, 2], [], [3], [4, 5, 6]] 4).map
        (fun r => (r.1, r.2.flatten)) =
      some (([[1, 2], [], [3], [4, 5, 6]] : List (List Nat)).flatten.take 4,
        ([[1, 2], [], [3], [4, 5, 6]] : List (List Nat)).flatten.drop 4) :=
  (claim_C9_read_exact [[1, 2], [], [3], [4, 5, 6]] 4).1 (by decide)

/-- Claim C10: every decoded channel value of a packet of bytes is at most
65535 (hence exactly representable as a Python float, non-negative and
integer-valued in the model), and no 14-bit clamp exists: the frame whose
channel bytes are all `0xFF` is decoded and published as six values 65535,
unchanged, although 65535 exceeds the nominal ADC maximum 16383. -/
theorem claim_C10_value_range :
    ∀ (packet : List Nat), (∀ b ∈ packet, b < 256) →
      (∀ v ∈ decode_packet packet, v ≤ 65535) ∧
      bridge_loop [0xC7, 0x7C, 0x00, 0xFF, 0xFF, 0xFF, 0xFF, 0xFF, 0xFF, 0xFF,
        0xFF, 0xFF, 0xFF, 0xFF, 0xFF, 0x01] =
        [[65535, 65535, 65535, 65535, 65535, 65535]] := by
  intro packet h
  constructor
  · intro v hv
    simp only [decode_packet, List.mem_map, List.mem_range] at hv
    obtain ⟨i, hi, rfl⟩ := hv
    exact word_le_65535 (getD_lt_256 h _) (getD_lt_256 h _)
  · have hlen : PACKET_LEN ≤ ([0xC7, 0x7C, 0x00, 0xFF, 0xFF, 0xFF, 0xFF, 0xFF,
        0xFF, 0xFF, 0xFF, 0xFF, 0xFF, 0xFF, 0xFF, 0x01] : List Nat).length := by
      decide
    have hacc : packet_rejected (([0xC7, 0x7C, 0x00, 0xFF, 0xFF, 0xFF, 0xFF,
        0xFF, 0xFF, 0xFF, 0xFF, 0xFF, 0xFF, 0xFF, 0xFF, 0x01] :
        List Nat).take PACKET_LEN) = false := by decide
    have hshort : (([0xC7, 0x7C, 0x00, 0xFF, 0xFF, 0xFF, 0xFF, 0xFF, 0xFF, 0xFF,
        0xFF, 0xFF, 0xFF, 0xFF, 0xFF, 0x01] : List Nat).drop PACKET_LEN).length <
        PACKET_LEN := by decide
    rw [bridge_loop_accept hlen hacc, bridge_loop_short hshort]
    decide

/-- Witness for `claim_C10_value_range`, concrete part, at the all-`0xFF`
frame. -/
theorem claim_C10_value_range_witness :
    bridge_loop [0xC7, 0x7C, 0x00, 0xFF, 0xFF, 0xFF, 0xFF, 0xFF, 0xFF, 0xFF,
      0xFF, 0xFF, 0xFF, 0xFF, 0xFF, 0x01] =
      [[65535, 65535, 65535, 65535, 65535, 65535]] :=
  (claim_C10_value_range [0xC7, 0x7C, 0x00, 0xFF, 0xFF, 0xFF, 0xFF, 0xFF, 0xFF,
    0xFF, 0xFF, 0xFF, 0xFF, 0xFF, 0xFF, 0x01] (by decide)).2

end Bridge
